import Mathlib

/-!
Verification development for the pdf_parser_python repository.

The definitions below are shallow embeddings of the Python sources:
`src/parser/state_machine.py`, `src/parser/models.py`,
`src/parser/validator.py`, `src/parser/block_extractor.py`,
`src/parser/background_worker.py` and `src/parser/database.py`.
Python regular expressions are translated into explicit, executable
character-list matchers (ASCII model of the character classes used by
the patterns); Python mutable objects become explicit state records.
-/

namespace PdfParser

/-! ### Character and string helpers (ASCII model of Python semantics)

Python `\s` is modelled by the six ASCII whitespace characters, `\d` by
the ASCII digits and `\w` by ASCII letters, digits and underscore —
the source documents handled by the parser are ASCII exam dumps.
-/

def isSpaceChar (c : Char) : Bool :=
  c = ' ' || c = '\t' || c = '\n' || c = '\r' || c.val = 11 || c.val = 12

def isDigitChar (c : Char) : Bool :=
  '0' ≤ c && c ≤ '9'

def isAsciiLetter (c : Char) : Bool :=
  ('a' ≤ c && c ≤ 'z') || ('A' ≤ c && c ≤ 'Z')

def isWordChar (c : Char) : Bool :=
  isAsciiLetter c || isDigitChar c || c = '_'

/-- Leading-whitespace removal, the effect of a greedy `\s*`. -/
def dropSpaces (l : List Char) : List Char :=
  l.dropWhile isSpaceChar

/-- Python `str.strip()`: remove whitespace from both ends. -/
def stripChars (l : List Char) : List Char :=
  ((l.dropWhile isSpaceChar).reverse.dropWhile isSpaceChar).reverse

/-- Python `str.strip()` on a `String`. -/
def stripStr (s : String) : String :=
  String.mk (stripChars s.data)

/-- Python `content.split("\n")`. -/
def splitLines : List Char → List (List Char)
  | [] => [[]]
  | c :: rest =>
    if c = '\n' then [] :: splitLines rest
    else
      match splitLines rest with
      | [] => [[c]]
      | h :: t => (c :: h) :: t

/-- Greedy `\d+`: maximal run of digits and the rest of the input. -/
def takeDigits (l : List Char) : List Char × List Char :=
  (l.takeWhile isDigitChar, l.dropWhile isDigitChar)

/-- Python `int()` on a captured digit group. -/
def digitsToNat (l : List Char) : Nat :=
  l.foldl (fun acc c => 10 * acc + (c.toNat - 48)) 0

/-- Consume a literal, case-insensitively (the literal is given in
lowercase); returns the rest of the input on success. -/
def eatCI : List Char → List Char → Option (List Char)
  | [], s => some s
  | _ :: _, [] => none
  | c :: cs, d :: ds => if d.toLower = c then eatCI cs ds else none

/-- Consume a literal, case-sensitively. -/
def eatCS : List Char → List Char → Option (List Char)
  | [], s => some s
  | _ :: _, [] => none
  | c :: cs, d :: ds => if d = c then eatCS cs ds else none

/-- `\s+` followed by further greedy whitespace: at least one whitespace
character, consuming the maximal run. -/
def eatSpaces1 (l : List Char) : Option (List Char) :=
  match l with
  | [] => none
  | c :: rest => if isSpaceChar c then some (dropSpaces rest) else none

/-- An optional literal character (`x?`). -/
def eatOpt (c : Char) (l : List Char) : List Char :=
  match l with
  | [] => []
  | d :: rest => if d = c then rest else l

/-! ### Anchor patterns of `src/parser/state_machine.py` -/

/-- `QUESTION_PATTERN = ^\s*Question\s*:?\s*(\d+)`, IGNORECASE.
Returns the captured number and the input after the match end. -/
def questionMatch (l : List Char) : Option (Nat × List Char) :=
  match eatCI "question".data (dropSpaces l) with
  | none => none
  | some r =>
    let r := dropSpaces r
    let r := eatOpt ':' r
    let r := dropSpaces r
    let (ds, rest) := takeDigits r
    if ds.isEmpty then none else some (digitsToNat ds, rest)

/-- `OPTION_PATTERN = ^\s*([A-Z])[\.\)]\s*`, IGNORECASE.
Returns the captured key letter and the input after the match end. -/
def optionMatch (l : List Char) : Option (Char × List Char) :=
  match dropSpaces l with
  | [] => none
  | c :: rest =>
    if isAsciiLetter c then
      match rest with
      | [] => none
      | d :: rest2 =>
        if d = '.' || d = ')' then some (c, dropSpaces rest2) else none
    else none

/-- The ordered alternation `(?:Answer|Ans|Key)`, IGNORECASE. -/
def answerKeyword (l : List Char) : Option (List Char) :=
  (eatCI "answer".data l).orElse fun _ =>
    (eatCI "ans".data l).orElse fun _ =>
      eatCI "key".data l

/-- `ANSWER_PATTERN = ^\s*(?:Correct\s+)?(?:Answer|Ans|Key)[\s.:]*`,
IGNORECASE.  Returns the input after the match end. -/
def answerMatch (l : List Char) : Option (List Char) :=
  let l1 := dropSpaces l
  let body :=
    match eatCI "correct".data l1 with
    | some r =>
      match eatSpaces1 r with
      | some r2 => answerKeyword r2
      | none => answerKeyword l1
    | none => answerKeyword l1
  match body with
  | none => none
  | some r => some (r.dropWhile fun c => isSpaceChar c || c = '.' || c = ':')

/-- `EXPLANATION_PATTERN = ^\s*(Explanation|Reference|Rationale)\s*:?\s*`,
IGNORECASE.  Returns the input after the match end. -/
def explanationMatch (l : List Char) : Option (List Char) :=
  let l1 := dropSpaces l
  let kw :=
    (eatCI "explanation".data l1).orElse fun _ =>
      (eatCI "reference".data l1).orElse fun _ =>
        eatCI "rationale".data l1
  match kw with
  | none => none
  | some r =>
    let r := dropSpaces r
    let r := eatOpt ':' r
    some (dropSpaces r)

/-! ### `IGNORE_PATTERNS` of `src/parser/state_machine.py`

Each entry models one compiled pattern, applied with `re.match`
(anchored at the start of the line, any match length accepted).
-/

/-- Python `.*$`: succeeds iff the rest holds no newline, or the sole
newline is the final character. -/
def dotStarEnd (r : List Char) : Bool :=
  !(r.contains '\n') || (r.getLast? = some '\n' && !(r.dropLast.contains '\n'))

/-- `\s*$`: the rest is whitespace only. -/
def spacesToEnd (r : List Char) : Bool :=
  r.all isSpaceChar

/-- `^\s*Questions and Answers PDF.*$`, IGNORECASE. -/
def ignQAPdf (l : List Char) : Bool :=
  match eatCI "questions and answers pdf".data (dropSpaces l) with
  | some r => dotStarEnd r
  | none => false

/-- `^\s*(Page\s*)?\d+\s*(/|of)\s*\d+\s*$`, IGNORECASE. -/
def ignPageCounter (l : List Char) : Bool :=
  let l1 := dropSpaces l
  let l2 :=
    match eatCI "page".data l1 with
    | some r => dropSpaces r
    | none => l1
  let (d1, r1) := takeDigits l2
  if d1.isEmpty then false
  else
    let r2 := dropSpaces r1
    let sep :=
      match r2 with
      | '/' :: rest => some rest
      | _ => eatCI "of".data r2
    match sep with
    | none => false
    | some r4 =>
      let (d2, r6) := takeDigits (dropSpaces r4)
      !d2.isEmpty && spacesToEnd r6

/-- `^\s*Question\s*\d+\s*$` — the only case-SENSITIVE entry of the
denylist (no `re.IGNORECASE` flag in the source). -/
def ignSoloQuestion (l : List Char) : Bool :=
  match eatCS "Question".data (dropSpaces l) with
  | none => false
  | some r =>
    let (ds, r2) := takeDigits (dropSpaces r)
    !ds.isEmpty && spacesToEnd r2

/-- `^https?://[^\s]+$` (case-sensitive). -/
def ignUrl (l : List Char) : Bool :=
  match eatCS "http".data l with
  | none => false
  | some r =>
    let r1 := eatOpt 's' r
    match eatCS "://".data r1 with
    | none => false
    | some r2 =>
      (!r2.isEmpty && r2.all fun c => !isSpaceChar c) ||
        (r2.getLast? = some '\n' && !r2.dropLast.isEmpty &&
          r2.dropLast.all fun c => !isSpaceChar c)

/-- `^\s*Box\s*\d+\s*:`, IGNORECASE. -/
def ignBox (l : List Char) : Bool :=
  match eatCI "box".data (dropSpaces l) with
  | none => false
  | some r =>
    let (ds, r2) := takeDigits (dropSpaces r)
    if ds.isEmpty then false
    else
      match dropSpaces r2 with
      | ':' :: _ => true
      | _ => false

/-- `^\s*Select and Place:`, IGNORECASE. -/
def ignSelectPlace (l : List Char) : Bool :=
  (eatCI "select and place:".data (dropSpaces l)).isSome

/-- `^\s*Thank\s+you\s+for\s+your\s+visit\.?\s*$`, IGNORECASE. -/
def ignThankYou (l : List Char) : Bool :=
  match eatCI "thank".data (dropSpaces l) with
  | none => false
  | some r =>
    match eatSpaces1 r with
    | none => false
    | some r =>
      match eatCI "you".data r with
      | none => false
      | some r =>
        match eatSpaces1 r with
        | none => false
        | some r =>
          match eatCI "for".data r with
          | none => false
          | some r =>
            match eatSpaces1 r with
            | none => false
            | some r =>
              match eatCI "your".data r with
              | none => false
              | some r =>
                match eatSpaces1 r with
                | none => false
                | some r =>
                  match eatCI "visit".data r with
                  | none => false
                  | some r => spacesToEnd (eatOpt '.' r)

/-- The shared tail `\s+<word>\b` of the boilerplate patterns: a word
boundary after the final literal. -/
def atWordBoundary (r : List Char) : Bool :=
  match r with
  | [] => true
  | c :: _ => !isWordChar c

/-- `^\s*Visit\s+us\s+at\b`, IGNORECASE. -/
def ignVisitUs (l : List Char) : Bool :=
  match eatCI "visit".data (dropSpaces l) with
  | none => false
  | some r =>
    match eatSpaces1 r with
    | none => false
    | some r =>
      match eatCI "us".data r with
      | none => false
      | some r =>
        match eatSpaces1 r with
        | none => false
        | some r =>
          match eatCI "at".data r with
          | none => false
          | some r => atWordBoundary r

/-- `^\s*For\s+more\s+questions\b`, IGNORECASE. -/
def ignForMore (l : List Char) : Bool :=
  match eatCI "for".data (dropSpaces l) with
  | none => false
  | some r =>
    match eatSpaces1 r with
    | none => false
    | some r =>
      match eatCI "more".data r with
      | none => false
      | some r =>
        match eatSpaces1 r with
        | none => false
        | some r =>
          match eatCI "questions".data r with
          | none => false
          | some r => atWordBoundary r

/-- `^\s*Get\s+certified\b`, IGNORECASE. -/
def ignGetCertified (l : List Char) : Bool :=
  match eatCI "get".data (dropSpaces l) with
  | none => false
  | some r =>
    match eatSpaces1 r with
    | none => false
    | some r =>
      match eatCI "certified".data r with
      | none => false
      | some r => atWordBoundary r

/-- `^\s*Download\s+free\b`, IGNORECASE. -/
def ignDownloadFree (l : List Char) : Bool :=
  match eatCI "download".data (dropSpaces l) with
  | none => false
  | some r =>
    match eatSpaces1 r with
    | none => false
    | some r =>
      match eatCI "free".data r with
      | none => false
      | some r => atWordBoundary r

/-- `examtopics?\.(com|org|net)`, IGNORECASE, anchored by `re.match`. -/
def ignExamtopics (l : List Char) : Bool :=
  match eatCI "examtopic".data l with
  | none => false
  | some r =>
    let r1 :=
      match r with
      | c :: rest => if c.toLower = 's' then rest else r
      | [] => []
    match r1 with
    | '.' :: r2 =>
      ((eatCI "com".data r2).orElse fun _ =>
        (eatCI "org".data r2).orElse fun _ =>
          eatCI "net".data r2).isSome
    | _ => false

/-- `certification.s*prep`, IGNORECASE, anchored by `re.match`
(`.` is any character but a newline; `s*` is maximal and "prep" never
begins with `s`, so greedy matching is complete). -/
def ignCertPrep (l : List Char) : Bool :=
  match eatCI "certification".data l with
  | none => false
  | some r =>
    match r with
    | [] => false
    | c :: rest =>
      if c = '\n' then false
      else
        (eatCI "prep".data (rest.dropWhile fun d => d.toLower = 's')).isSome

/-- `any(p.match(line_str) for p in IGNORE_PATTERNS)`. -/
def isIgnored (l : List Char) : Bool :=
  ignQAPdf l || ignPageCounter l || ignSoloQuestion l || ignUrl l ||
    ignBox l || ignSelectPlace l || ignThankYou l || ignVisitUs l ||
    ignForMore l || ignGetCertified l || ignDownloadFree l ||
    ignExamtopics l || ignCertPrep l

/-! ### Data model (`src/parser/models.py`)

Numeric fields that are floats in the source (bounding boxes, font
sizes) are modelled by integers: no claim depends on their arithmetic,
only on their use as sort keys and dimensions.
-/

inductive BlockType where
  | text
  | image
deriving DecidableEq, Repr

structure FontInfo where
  name : Option String := none
  size : Option Int := none
  flags : Option Int := none
  color : Option Int := none
  is_bold : Bool := false
  is_italic : Bool := false
deriving DecidableEq, Repr

structure ContentBlock where
  type : BlockType
  content : String
  page_number : Nat
  bbox : Int × Int × Int × Int
  order_index : Nat
  font_info : Option FontInfo := none
deriving DecidableEq, Repr

inductive AnomalyType where
  | missing_answer
  | missing_question_text
  | explanation_without_answer
  | orphan_image
  | duplicate_question_number
  | multi_page_fragmentation
  | unrecognized_anchor
  | empty_section
  | missing_explanation
deriving DecidableEq, Repr

structure Anomaly where
  type : AnomalyType
  severity : Nat
  message : String
  context : Option (List (String × String)) := none
deriving DecidableEq, Repr

/-- Modelled from the spec: `QuestionOption` is imported by
`state_machine.py` but defined in no file under `src/`; per §3 of the
spec an option carries a key, text, a correctness flag and images. -/
structure QuestionOption where
  key : String
  text : String := ""
  is_correct : Bool := false
  images : List String := []
deriving DecidableEq, Repr

/-- Modelled from the spec: the flat `ParsedQuestion` entity which
`state_machine.py` reads and writes (`question_text`, `options`,
per-section image lists, …).  `src/parser/models.py` instead carries a
block-dict variant of the class that lacks these fields; §3 of the spec
describes the flat shape used here. -/
structure ParsedQuestion where
  question_number : Nat
  page_start : Nat
  page_end : Nat
  question_text : String := ""
  answer_text : String := ""
  explanation_text : String := ""
  options : List QuestionOption := []
  question_images : List String := []
  answer_images : List String := []
  explanation_images : List String := []
  anomalies : List Anomaly := []
deriving DecidableEq, Repr

/-- Modelled from the spec: derived `has_question_text` — non-empty
trimmed question text (§3). -/
def ParsedQuestion.hasQuestionText (q : ParsedQuestion) : Bool :=
  stripStr q.question_text ≠ ""

/-- Modelled from the spec: derived `has_answer` — non-empty trimmed
answer text (§3). -/
def ParsedQuestion.hasAnswer (q : ParsedQuestion) : Bool :=
  stripStr q.answer_text ≠ ""

/-- Modelled from the spec: derived `has_explanation` — non-empty
trimmed explanation text (§3). -/
def ParsedQuestion.hasExplanation (q : ParsedQuestion) : Bool :=
  stripStr q.explanation_text ≠ ""

/-- `ParsedQuestion.anomaly_score` (`src/parser/models.py`, lines
146-152): 0 for an empty anomaly list, otherwise
`min(100, sum(a.severity for a in self.anomalies))`. -/
def ParsedQuestion.anomalyScore (q : ParsedQuestion) : Nat :=
  if q.anomalies.isEmpty then 0
  else min 100 (q.anomalies.map Anomaly.severity).sum

/-! ### State machine (`src/parser/state_machine.py`) -/

inductive ParserState where
  | SEEKING_QUESTION
  | QUESTION_BODY
  | OPTION
  | ANSWER
  | EXPLANATION
deriving DecidableEq, Repr

/-- The mutable fields of `StateMachineParser`.  The Python
`current_option` attribute aliases the last element of
`current_question.options`; the embedding keeps the options list
authoritative and `current_option` as the presence flag of that alias
(the object itself is always truthy in the source's `if` tests). -/
structure SMParser where
  state : ParserState := .SEEKING_QUESTION
  current_question : Option ParsedQuestion := none
  current_option : Bool := false
  questions : List ParsedQuestion := []
  question_numbers : Finset Nat := ∅
deriving DecidableEq

/-- `StateMachineParser.__init__` / `reset`. -/
def initParser : SMParser := {}

/-- Apply an update to the in-flight question, if any. -/
def modifyCurrent (f : ParsedQuestion → ParsedQuestion)
    (p : SMParser) : SMParser :=
  match p.current_question with
  | none => p
  | some q => { p with current_question := some (f q) }

/-- Replace the text of the last option (the target of the Python
`current_option` alias). -/
def modifyLastOption (f : QuestionOption → QuestionOption)
    (q : ParsedQuestion) : ParsedQuestion :=
  match q.options.getLast? with
  | none => q
  | some o => { q with options := q.options.dropLast ++ [f o] }

/-- `StateMachineParser._append_text`. -/
def appendText (p : SMParser) (text : String) : SMParser :=
  if p.current_question.isNone then p
  else
    match p.state with
    | .QUESTION_BODY =>
      modifyCurrent (fun q =>
        if q.question_text ≠ "" then
          { q with question_text := q.question_text ++ " " ++ text }
        else { q with question_text := text }) p
    | .OPTION =>
      if p.current_option then
        modifyCurrent (modifyLastOption fun o =>
          if o.text ≠ "" then { o with text := o.text ++ " " ++ text }
          else { o with text := text }) p
      else p
    | .ANSWER =>
      modifyCurrent (fun q =>
        if q.answer_text ≠ "" then
          { q with answer_text := q.answer_text ++ " " ++ text }
        else { q with answer_text := text }) p
    | .EXPLANATION =>
      modifyCurrent (fun q =>
        if q.explanation_text ≠ "" then
          { q with explanation_text := q.explanation_text ++ " " ++ text }
        else { q with explanation_text := text }) p
    | .SEEKING_QUESTION => p

/-- `re.findall(r"\b([A-Z])\b", s)`: standalone single uppercase
letters, with a word boundary on each side. -/
def findUpperTokens : Option Char → List Char → List Char
  | _, [] => []
  | prev, c :: rest =>
    let boundaryBefore :=
      match prev with
      | none => true
      | some d => !isWordChar d
    let boundaryAfter :=
      match rest with
      | [] => true
      | d :: _ => !isWordChar d
    let hit := 'A' ≤ c && c ≤ 'Z' && boundaryBefore && boundaryAfter
    (if hit then [c] else []) ++ findUpperTokens (some c) rest

/-- `StateMachineParser._finalize_question` (no-op on a missing
in-flight question; every call site in the source guards on it). -/
def finalizeQuestion (p : SMParser) : SMParser :=
  match p.current_question with
  | none => p
  | some q0 =>
    let opts := q0.options.filter fun o =>
      stripStr o.text ≠ "" || !o.images.isEmpty
    let expl :=
      if q0.explanation_text ≠ "" then
        if isIgnored (stripChars q0.explanation_text.data) then ""
        else q0.explanation_text
      else q0.explanation_text
    let q1 := { q0 with options := opts, explanation_text := expl }
    let q2 :=
      if !q1.hasQuestionText then
        { q1 with anomalies := q1.anomalies ++
            [{ type := .missing_question_text, severity := 80,
               message := "Question has no text content" }] }
      else q1
    let q3 :=
      if !q2.hasAnswer then
        { q2 with anomalies := q2.anomalies ++
            [{ type := .missing_answer, severity := 60,
               message := "Question has no answer section" }] }
      else
        let ansKeys :=
          (findUpperTokens none (q2.answer_text.data.map .toUpper)).map
            fun c => String.mk [c]
        if ansKeys.isEmpty then q2
        else
          { q2 with options := q2.options.map fun o =>
              if ansKeys.contains (String.mk (o.key.data.map .toUpper)) then
                { o with is_correct := true }
              else o }
    let q4 :=
      if q3.question_text = "" && !q3.question_images.isEmpty then
        { q3 with anomalies := q3.anomalies ++
            [{ type := .orphan_image, severity := 30,
               message := "Question body contains only images",
               context := some [("section", "question")] }] }
      else q3
    { p with questions := p.questions ++ [q4],
             current_question := some q4 }

/-- `StateMachineParser._start_new_question`. -/
def startNewQuestion (p : SMParser) (qNum : Nat) (page : Nat) : SMParser :=
  let p := if p.current_question.isSome then finalizeQuestion p else p
  { p with
    current_question := some
      { question_number := qNum, page_start := page, page_end := page },
    current_option := false,
    state := .QUESTION_BODY,
    question_numbers := insert qNum p.question_numbers }

/-- `StateMachineParser._start_new_option`. -/
def startNewOption (p : SMParser) (key : String) : SMParser :=
  let p := { p with state := .OPTION, current_option := true }
  modifyCurrent (fun q => { q with options := q.options ++ [{ key := key }] }) p

/-- `StateMachineParser._assign_image`. -/
def assignImage (p : SMParser) (b : ContentBlock) : SMParser :=
  let path := b.content
  let p :=
    match p.state with
    | .QUESTION_BODY =>
      modifyCurrent (fun q =>
        { q with question_images := q.question_images ++ [path] }) p
    | .OPTION =>
      if p.current_option then
        modifyCurrent (modifyLastOption fun o =>
          { o with images := o.images ++ [path] }) p
      else
        modifyCurrent (fun q =>
          { q with question_images := q.question_images ++ [path] }) p
    | .ANSWER =>
      modifyCurrent (fun q =>
        { q with answer_images := q.answer_images ++ [path] }) p
    | .EXPLANATION =>
      modifyCurrent (fun q =>
        { q with explanation_images := q.explanation_images ++ [path] }) p
    | .SEEKING_QUESTION => p
  modifyCurrent (fun q =>
    { q with page_end := max q.page_end b.page_number }) p

/-- The per-line body of `StateMachineParser._process_block`. -/
def processLine (page : Nat) (p : SMParser) (line : List Char) : SMParser :=
  let lineStr := stripChars line
  if lineStr.isEmpty then p
  else if isIgnored lineStr then p
  else
    match questionMatch lineStr with
    | some (qNum, rest) =>
      let p := startNewQuestion p qNum page
      let rem := stripChars rest
      if rem.isEmpty then p else appendText p (String.mk rem)
    | none =>
      if p.current_question.isNone then p
      else
        match optionMatch lineStr with
        | some (key, restOpt) =>
          if p.state = .QUESTION_BODY || p.state = .OPTION then
            let p := startNewOption p (String.mk [key.toUpper])
            let rem := stripChars restOpt
            if rem.isEmpty then p else appendText p (String.mk rem)
          else
            processLineTail p lineStr
        | none => processLineTail p lineStr
where
  /-- The answer/explanation/accumulate tail of the line handler,
  reached when the line is no question anchor and no applicable option
  anchor. -/
  processLineTail (p : SMParser) (lineStr : List Char) : SMParser :=
    match answerMatch lineStr with
    | some rest =>
      let p := { p with state := .ANSWER, current_option := false }
      let rem := stripChars rest
      if rem.isEmpty then p else appendText p (String.mk rem)
    | none =>
      match explanationMatch lineStr with
      | some rest =>
        let p := { p with state := .EXPLANATION, current_option := false }
        let rem := stripChars rest
        if rem.isEmpty then p else appendText p (String.mk rem)
      | none => appendText p (String.mk lineStr)

/-- `StateMachineParser._process_block`. -/
def processBlock (p : SMParser) (b : ContentBlock) : SMParser :=
  match b.type with
  | .image =>
    if p.current_question.isNone then p else assignImage p b
  | .text =>
    (splitLines b.content.data).foldl (processLine b.page_number) p

/-- `StateMachineParser.finalize`. -/
def smFinalize (p : SMParser) : SMParser :=
  if p.current_question.isSome then finalizeQuestion p else p

/-- `StateMachineParser.parse`: re-initialise every field, consume the
blocks, finalize the trailing question, return the questions. -/
def parseRun (p : SMParser) (blocks : List ContentBlock) : SMParser :=
  let _ := p
  smFinalize (blocks.foldl processBlock initParser)

/-- The return value of `parse`. -/
def parseQuestions (p : SMParser) (blocks : List ContentBlock) :
    List ParsedQuestion :=
  (parseRun p blocks).questions

/-! ### Validation engine (`src/parser/validator.py`)

The fields computed by `ValidationEngine.validate`; the logging and the
`anomaly_breakdown` string-keyed counter dictionary are omitted.
-/

structure ValidationReport where
  total_questions_detected : Nat := 0
  structured_successfully : Nat := 0
  missing_question_numbers : List Nat := []
  duplicate_question_numbers : List Nat := []
  questions_missing_answer : List Nat := []
  questions_missing_explanation : List Nat := []
  orphan_images : Nat := 0
deriving DecidableEq, Repr

/-- `ValidationEngine.validate`. -/
def validate (questions : List ParsedQuestion) : ValidationReport :=
  if questions.isEmpty then {}
  else
    let questionNumbers := questions.map ParsedQuestion.question_number
    let dups :=
      (questionNumbers.toFinset.filter fun n =>
        1 < questionNumbers.count n).sort (· ≤ ·)
    let minNum := questionNumbers.min?.getD 0
    let maxNum := questionNumbers.max?.getD 0
    let missing :=
      ((Finset.Icc minNum maxNum) \ questionNumbers.toFinset).sort (· ≤ ·)
    { total_questions_detected := questions.length
      structured_successfully :=
        (questions.filter fun q => q.hasQuestionText && q.hasAnswer).length
      missing_question_numbers := missing
      duplicate_question_numbers := dups
      questions_missing_answer :=
        (questions.filter fun q => !q.hasAnswer).map (·.question_number)
      questions_missing_explanation :=
        (questions.filter fun q => !q.hasExplanation).map (·.question_number)
      orphan_images :=
        (questions.map fun q =>
          (q.anomalies.filter fun a => a.type = .orphan_image).length).sum }

/-! ### Block extractor (`src/parser/block_extractor.py`)

`BlockExtractor.extract`: per page, the image and text blocks are
collected, the page is sorted by `(bbox.y0, bbox.x0)`, the pages are
concatenated, and a final re-indexing pass overwrites `order_index`
with the list position.  The PyMuPDF page decoding is external; the
model takes the per-page block lists it produced as input.
-/

/-- The page-local sort `current_page_blocks.sort(key=(bbox[1], bbox[0]))`
(Python's sort is stable, as is `mergeSort`). -/
def sortPageBlocks (bs : List ContentBlock) : List ContentBlock :=
  bs.mergeSort fun a b =>
    a.bbox.2.1 < b.bbox.2.1 ||
      (a.bbox.2.1 = b.bbox.2.1 && a.bbox.1 ≤ b.bbox.1)

/-- The final re-indexing loop of `BlockExtractor.extract` (lines
144-147): `for idx, b in enumerate(all_blocks): b.order_index = idx`. -/
def reindexBlocks (bs : List ContentBlock) : List ContentBlock :=
  bs.enum.map fun ib => { ib.2 with order_index := ib.1 }

/-- `BlockExtractor.extract` over the per-page block lists supplied by
the external page decoder. -/
def extract (pages : List (List ContentBlock)) : List ContentBlock :=
  reindexBlocks (pages.map sortPageBlocks).flatten

/-! ### Image extraction (`BlockExtractor._extract_images_from_page`)

The caches `_image_cache` (xref → logo flag / stored path),
`_image_hashes` (content hash → occurrence count and stored path) and
`_image_counter` become explicit state; the actual `open().write()` of
the image bytes becomes an entry in a write log.  Emitted image blocks
are tagged with the content hash of their source bytes (a ghost
annotation used only by the statements), and a stored cache entry
likewise records the hash it was created from.
-/

/-- The data `doc.extract_image(xref)` returns for one xref: the raw
bytes are represented by their content hash (`hashlib.md5` digest —
equal bytes, equal hash), plus pixel dimensions and format. -/
structure ImgData where
  hash : String
  width : Nat
  height : Nat
  ext : String
deriving DecidableEq, Repr

/-- A rendered placement rectangle (`page.get_image_rects`), with the
float coordinates modelled by integers. -/
structure ImgRect where
  x0 : Int
  y0 : Int
  x1 : Int
  y1 : Int
deriving DecidableEq, Repr

def ImgRect.w (r : ImgRect) : Int := r.x1 - r.x0
def ImgRect.h (r : ImgRect) : Int := r.y1 - r.y0

/-- One entry of `page.get_images(full=True)` together with the
placements of that xref on the page. -/
structure ImgOccurrence where
  xref : Nat
  rects : List ImgRect
deriving DecidableEq, Repr

/-- One page's image inputs as seen by
`_extract_images_from_page(page, page_num, start_order)`. -/
structure PageImages where
  page_number : Nat
  start_order : Nat
  imgs : List ImgOccurrence
deriving DecidableEq, Repr

/-- An `_image_cache` entry: `{"is_logo": True}` or
`{"rel_path": p, "is_logo": False}` (the hash is a ghost field). -/
inductive CacheEntry where
  | logo
  | stored (hash : String) (relPath : String)
deriving DecidableEq, Repr

/-- The extractor's image caches, the write log, and the emitted image
blocks tagged with their content hash. -/
structure ExtractState where
  cache : Nat → Option CacheEntry := fun _ => none
  hashCount : String → Nat := fun _ => 0
  hashPath : String → Option String := fun _ => none
  counter : Nat := 0
  writes : List (String × String) := []
  emitted : List (String × ContentBlock) := []

/-- The loop body of `_extract_images_from_page` for one image of the
page list.  `doc` maps an xref to its extracted image data
(`doc.extract_image`, `None` modelled by `Option`). -/
def processImage (minImageSize : Nat) (dirName : String)
    (doc : Nat → Option ImgData) (pageNum startOrder : Nat)
    (s : ExtractState) (idxImg : Nat × ImgOccurrence) : ExtractState :=
  let imgIdx := idxImg.1
  let o := idxImg.2
  match s.cache o.xref with
  | some .logo => s
  | some (.stored h p) =>
    match o.rects.head? with
    | none => s
    | some r =>
      if r.w < 1 || r.h < 1 then s
      else
        { s with emitted := s.emitted ++
            [(h, { type := .image, content := p, page_number := pageNum,
                   bbox := (r.x0, r.y0, r.x1, r.y1),
                   order_index := startOrder + imgIdx })] }
  | none =>
    match doc o.xref with
    | none => s
    | some d =>
      if d.width < minImageSize || d.height < minImageSize then
        { s with cache := fun x =>
            if x = o.xref then some .logo else s.cache x }
      else
        match o.rects.head? with
        | none => s
        | some r =>
          if r.w < 1 || r.h < 1 then s
          else
            let area := r.w * r.h
            let cnt := s.hashCount d.hash + 1
            let s1 := { s with hashCount := fun h =>
                if h = d.hash then cnt else s.hashCount h }
            if 5 < cnt && area < 10000 then
              { s1 with cache := fun x =>
                  if x = o.xref then some .logo else s1.cache x }
            else
              let saved :=
                match s1.hashPath d.hash with
                | some p => (p, s1)
                | none =>
                  let counter := s1.counter + 1
                  let filename := "q_img_" ++ toString counter ++ "_" ++
                    toString o.xref ++ "_" ++ toString pageNum ++ "." ++ d.ext
                  let rp := "questions/" ++ dirName ++ "/" ++ filename
                  (rp, { s1 with
                    counter := counter,
                    hashPath := fun h =>
                      if h = d.hash then some rp else s1.hashPath h,
                    writes := s1.writes ++ [(d.hash, rp)] })
              let rp := saved.1
              let s2 := saved.2
              { s2 with
                cache := fun x =>
                  if x = o.xref then some (.stored d.hash rp) else s2.cache x,
                emitted := s2.emitted ++
                  [(d.hash, { type := .image, content := rp,
                              page_number := pageNum,
                              bbox := (r.x0, r.y0, r.x1, r.y1),
                              order_index := startOrder + imgIdx })] }

/-- `_extract_images_from_page` for one page, including the
2000-images-per-page guardrail. -/
def processPageImages (minImageSize : Nat) (dirName : String)
    (doc : Nat → Option ImgData) (s : ExtractState)
    (pg : PageImages) : ExtractState :=
  if 2000 < pg.imgs.length then s
  else
    pg.imgs.enum.foldl
      (processImage minImageSize dirName doc pg.page_number pg.start_order) s

/-- One extraction run's image processing over a sequence of pages. -/
def runImages (minImageSize : Nat) (dirName : String)
    (doc : Nat → Option ImgData) (pages : List PageImages) : ExtractState :=
  pages.foldl (processPageImages minImageSize dirName doc) {}

/-! ### Idempotent question persistence
(`BackgroundParserWorker._save_question`,
`database.delete_question_by_exam_and_number`,
`database.insert_single_question`)

The question store is a list of rows keyed by (exam_id,
question_number).  One save deletes every row with the question's key
and appends one fresh row.
-/

/-- A stored question row: owning exam id and question payload. -/
structure QRow where
  exam_id : Nat
  question : ParsedQuestion
deriving DecidableEq, Repr

/-- The key predicate of `DELETE FROM questions WHERE exam_id = ? AND
question_number = ?`. -/
def QRow.sameKey (r : QRow) (examId qNum : Nat) : Bool :=
  r.exam_id = examId && r.question.question_number = qNum

/-- `BackgroundParserWorker._save_question`: delete any existing row
for (exam, question_number), then insert. -/
def saveQuestion (examId : Nat) (db : List QRow) (q : ParsedQuestion) :
    List QRow :=
  (db.filter fun r => !r.sameKey examId q.question_number) ++
    [{ exam_id := examId, question := q }]

/-- The sequence of `_save_question` calls a page's newly finalized
questions trigger. -/
def savePage (examId : Nat) (db : List QRow) (qs : List ParsedQuestion) :
    List QRow :=
  qs.foldl (saveQuestion examId) db

/-- "At most one row per (exam, question_number)". -/
def uniqueKeys (db : List QRow) : Prop :=
  ∀ examId qNum, (db.filter fun r => r.sameKey examId qNum).length ≤ 1

/-! ### Checkpointed worker (`BackgroundParserWorker._run_internal`)

The per-page loop threads the extractor caches, the global order
counter and the state machine through the pages; after each page the
newly finalized questions are saved and the checkpoint advances.
`extract_from_page` is called by the worker but defined nowhere under
`src/`; it is modelled from the spec (§4.4: the Normalizer's caches
hold no non-reproducible state — the same inputs always produce the
same blocks and cache state) as an arbitrary pure function of the cache
state, the page number and the running order counter, passed as a
parameter `extractPage`.
-/

/-- The in-memory state the worker loop threads from page to page:
extractor caches, `global_order`, and the state machine. -/
structure PipeState (ε : Type) where
  ext : ε
  order : Nat
  sm : SMParser

/-- One iteration of the worker's page loop (and, identically, of
`_replay_pages`): extract the page's blocks, advance `global_order`,
feed every block to the state machine. -/
def processPage {ε : Type} (extractPage : ε → Nat → Nat → List ContentBlock × ε)
    (s : PipeState ε) (pageNum : Nat) : PipeState ε :=
  let blocks := (extractPage s.ext pageNum s.order).1
  let ext := (extractPage s.ext pageNum s.order).2
  { ext := ext,
    order := s.order + blocks.length,
    sm := blocks.foldl processBlock s.sm }

/-- Fold the page loop over a list of page numbers. -/
def runPages {ε : Type} (extractPage : ε → Nat → Nat → List ContentBlock × ε)
    (s : PipeState ε) (pages : List Nat) : PipeState ε :=
  pages.foldl (processPage extractPage) s

/-- The worker's pipeline state after pages `1..P` of a fresh run
(`P = 0` is the initial state: fresh extractor caches, `global_order =
0`, a reset state machine). -/
def pipeAfter {ε : Type} (extractPage : ε → Nat → Nat → List ContentBlock × ε)
    (e0 : ε) (P : Nat) : PipeState ε :=
  runPages extractPage ⟨e0, 0, initParser⟩ (List.range' 1 P)

/-- A fresh full run (`start_from_page = 0`): pages `1..N` through the
loop, then `finalize`; the final structured question list. -/
def fullRunQuestions {ε : Type}
    (extractPage : ε → Nat → Nat → List ContentBlock × ε)
    (e0 : ε) (totalPages : Nat) : List ParsedQuestion :=
  (smFinalize (pipeAfter extractPage e0 totalPages).sm).questions

/-- A resumed run with checkpoint page `C`: `_replay_pages` re-runs
pages `1..C-1` through the same extractor and state machine while
discarding all output, then the main loop processes pages `C..N`, then
`finalize`; the final structured question list. -/
def resumeRunQuestions {ε : Type}
    (extractPage : ε → Nat → Nat → List ContentBlock × ε)
    (e0 : ε) (totalPages C : Nat) : List ParsedQuestion :=
  let replayed := runPages extractPage ⟨e0, 0, initParser⟩
    (List.range' 1 (C - 1))
  let finished := runPages extractPage replayed
    (List.range' C (totalPages - C + 1))
  (smFinalize finished.sm).questions

/-- The questions newly finalized while processing page `P` of a fresh
run (`new_questions = state_machine.questions[prev_count:]`). -/
def newQuestionsOnPage {ε : Type}
    (extractPage : ε → Nat → Nat → List ContentBlock × ε)
    (e0 : ε) (P : Nat) : List ParsedQuestion :=
  (pipeAfter extractPage e0 P).sm.questions.drop
    (pipeAfter extractPage e0 (P - 1)).sm.questions.length

/-! ### Worker persistence events (claim C2)

Each loop iteration emits one persist event per newly finalized
question, then one checkpoint event (`db.update_exam(current_page =
page_num)`).  A crash or exception at any point is an arbitrary prefix
of the event sequence: the exception handler touches `status` and
`last_error` only, never `current_page`.
-/

inductive WorkerEvent where
  | persist (q : ParsedQuestion)
  | checkpoint (page : Nat)
deriving DecidableEq

/-- The events page `P` emits: its persists, then its checkpoint. -/
def pageEvents (newQ : Nat → List ParsedQuestion) (P : Nat) :
    List WorkerEvent :=
  (newQ P).map .persist ++ [.checkpoint P]

/-- The persisted state the events act on: the stored checkpoint, the
row store, and a ghost append-only log of every question ever
persisted. -/
structure DBState where
  current_page : Nat := 0
  rows : List QRow := []
  persisted : List ParsedQuestion := []
deriving DecidableEq

/-- Apply one worker event to the persisted state. -/
def dbStep (examId : Nat) (s : DBState) (e : WorkerEvent) : DBState :=
  match e with
  | .persist q =>
    { s with rows := saveQuestion examId s.rows q,
             persisted := s.persisted ++ [q] }
  | .checkpoint p => { s with current_page := p }

/-- The persisted state after the first `n` events of the pages
`firstPage..firstPage+numPages-1` (a crash inside the loop is a proper
prefix). -/
def dbAfter (examId : Nat) (newQ : Nat → List ParsedQuestion)
    (s0 : DBState) (firstPage numPages n : Nat) : DBState :=
  (((List.range' firstPage numPages).flatMap (pageEvents newQ)).take n).foldl
    (dbStep examId) s0

/-! ## Claim C8 — anomaly score formula -/

/-- C8: for every `ParsedQuestion` `q`, the derived `anomaly_score`
equals `min(100, Σ anomaly.severity)` over `q.anomalies`, and equals 0
when the anomaly list is empty. -/
theorem anomaly_score_formula (q : ParsedQuestion) :
    q.anomalyScore = min 100 (q.anomalies.map Anomaly.severity).sum ∧
      (q.anomalies = [] → q.anomalyScore = 0) := by
  constructor
  · unfold ParsedQuestion.anomalyScore
    match h : q.anomalies with
    | [] => simp
    | a :: rest => simp
  · intro h
    simp [ParsedQuestion.anomalyScore, h]

/-- Witness for C8 at a concrete question with an empty anomaly list. -/
theorem anomaly_score_formula_witness :
    ({ question_number := 1, page_start := 1, page_end := 1 } :
      ParsedQuestion).anomalies = [] ∧
    ({ question_number := 1, page_start := 1, page_end := 1 } :
      ParsedQuestion).anomalyScore = 0 :=
  ⟨rfl, (anomaly_score_formula
    { question_number := 1, page_start := 1, page_end := 1 }).2 rfl⟩

/-! ## Claim C10 — parse is insensitive to prior instance state -/

/-- C10: for every parser instance state `p`, whatever earlier parsing
produced it, and every block list, `parse` returns the same question
list as on a freshly constructed parser: `parse` re-initialises the
state, the in-flight question and option, the output list and the
seen-number set before consuming any block. -/
theorem parse_insensitive_to_prior_state (p : SMParser)
    (blocks : List ContentBlock) :
    parseQuestions p blocks = parseQuestions initParser blocks := rfl

/-! ## Claim C5 — order-index contiguity -/

/-- C5: for every document (any per-page block lists the page decoder
produced), the block list returned by `BlockExtractor.extract` carries
order_index values that are exactly `0..N-1` in list order. -/
theorem extract_order_index_contiguous (pages : List (List ContentBlock)) :
    (extract pages).map ContentBlock.order_index =
      List.range (extract pages).length := by
  have hlen : (extract pages).length =
      ((pages.map sortPageBlocks).flatten).length := by
    simp [extract, reindexBlocks]
  rw [hlen]
  simp only [extract, reindexBlocks, List.map_map]
  have hcomp :
      (ContentBlock.order_index ∘ fun ib : Nat × ContentBlock =>
        { ib.2 with order_index := ib.1 }) = Prod.fst := by
    funext ib
    rfl
  rw [hcomp, List.enum_map_fst]

/-! ## Claim C4 — duplicate question numbers (code bug) -/

/-- The block stream of
`tests/test_parser.py::test_duplicate_question_numbers`: two questions
both numbered 1. -/
def duplicateNumberBlocks : List ContentBlock :=
  [{ type := .text, content := "Question: 1", page_number := 1,
     bbox := (0, 0, 100, 20), order_index := 0 },
   { type := .text, content := "First Q1", page_number := 1,
     bbox := (0, 0, 100, 20), order_index := 1 },
   { type := .text, content := "Answer: A", page_number := 1,
     bbox := (0, 0, 100, 20), order_index := 2 },
   { type := .text, content := "Question: 1", page_number := 1,
     bbox := (0, 0, 100, 20), order_index := 3 },
   { type := .text, content := "Second Q1", page_number := 1,
     bbox := (0, 0, 100, 20), order_index := 4 },
   { type := .text, content := "Answer: B", page_number := 1,
     bbox := (0, 0, 100, 20), order_index := 5 }]

/-- C4 (code bug evaluation): on a block stream with two `Question: 1`
anchors, the state machine does retain both occurrences as distinct
entries, but the later entry carries NO anomaly at all — in particular
no `duplicate_question_number` anomaly.  The `question_numbers` set
maintained by `_start_new_question` is never consulted, and no code
path appends a `duplicate_question_number` anomaly, although
`tests/test_parser.py` asserts one on the second occurrence. -/
theorem duplicate_number_anomaly_missing :
    (parseQuestions initParser duplicateNumberBlocks).map
        (fun q => (q.question_number, q.anomalies)) = [(1, []), (1, [])] := by
  rfl

/-! ## Claim C7 — bare question-number noise lines (corrected) -/

/-- Counterexample to C7 as stated: the single text line `QUESTION 5`
consists of the word "Question" followed by digits and nothing else,
in upper case — yet the state machine does NOT drop it: the solo
`Question N` denylist entry is the one pattern compiled without
`re.IGNORECASE`, so the line instead matches the case-insensitive
Question anchor and starts a new question numbered 5. -/
theorem bare_question_upper_case_starts_question :
    (parseQuestions initParser
        [{ type := .text, content := "QUESTION 5", page_number := 1,
           bbox := (0, 0, 100, 20), order_index := 0 }]).map
      ParsedQuestion.question_number = [5] := by
  rfl

/-- C7 amended: for every text line consisting of the word "Question"
written exactly as `Question` (capital Q, lowercase rest) followed by
digits and nothing else — the case-sensitive denylist pattern
`^\s*Question\s*\d+\s*$` — the state machine drops the line before
anchor matching: the parser state is unchanged, so the line is never
appended to any section's text and never starts a new question.  (A
bare question-number line in any other letter case instead matches the
case-insensitive Question anchor and starts a new question.) -/
theorem bare_question_exact_case_dropped (p : SMParser) (page : Nat)
    (line : List Char) (h : ignSoloQuestion (stripChars line) = true) :
    processLine page p line = p := by
  have hne : (stripChars line).isEmpty = false := by
    cases hl : stripChars line with
    | nil => rw [hl] at h; simp [ignSoloQuestion, dropSpaces, eatCS] at h
    | cons c rest => simp
  have hig : isIgnored (stripChars line) = true := by
    unfold isIgnored
    rw [h]
    simp
  unfold processLine
  simp only [hne, hig]
  simp

/-- Witness for the amended C7 at the concrete line `Question 5`. -/
theorem bare_question_exact_case_dropped_witness :
    ignSoloQuestion (stripChars "Question 5".data) = true ∧
      processLine 1 initParser "Question 5".data = initParser :=
  ⟨by decide, bare_question_exact_case_dropped initParser 1 "Question 5".data
    (by decide)⟩

/-! ## Claim C1 — resume equivalence -/

/-- C1: for every document (any deterministic per-page extractor and
initial cache state), every page count `N` and every checkpoint page
`C` with `1 ≤ C ≤ N`, replaying pages `1..C-1` while discarding output
and then processing pages `C..N` yields exactly the same final
structured question list as a single unbroken pass over pages `1..N`:
the replay threads the extractor caches, the order counter and the
state machine through the very same per-page fold, so the same block
sequence always reconstructs the same parser state. -/
theorem resume_equivalence {ε : Type}
    (extractPage : ε → Nat → Nat → List ContentBlock × ε) (e0 : ε)
    (N C : Nat) (h1 : 1 ≤ C) (h2 : C ≤ N) :
    resumeRunQuestions extractPage e0 N C =
      fullRunQuestions extractPage e0 N := by
  have hsplit : List.range' 1 (C - 1) ++ List.range' C (N - C + 1) =
      List.range' 1 N := by
    have hs : C = 1 + 1 * (C - 1) := by omega
    have hn : (N - C + 1) + (C - 1) = N := by omega
    calc List.range' 1 (C - 1) ++ List.range' C (N - C + 1)
        = List.range' 1 (C - 1) 1 ++
            List.range' (1 + 1 * (C - 1)) (N - C + 1) 1 := by rw [← hs]
      _ = List.range' 1 ((N - C + 1) + (C - 1)) 1 :=
          List.range'_append 1 (C - 1) (N - C + 1) 1
      _ = List.range' 1 N := by rw [hn]
  unfold resumeRunQuestions fullRunQuestions pipeAfter runPages
  simp only [← List.foldl_append]
  rw [hsplit]

/-- Witness for C1: a two-page document with a question split across
the checkpoint boundary, resumed at `C = 2`. -/
theorem resume_equivalence_witness :
    (1 ≤ 2 ∧ 2 ≤ 2) ∧
    resumeRunQuestions
        (fun _ p o =>
          ([{ type := .text,
              content := if p = 1 then "Question: 1" else "Answer: B",
              page_number := p, bbox := (0, 0, 100, 20), order_index := o }],
            ()))
        () 2 2 =
      fullRunQuestions
        (fun _ p o =>
          ([{ type := .text,
              content := if p = 1 then "Question: 1" else "Answer: B",
              page_number := p, bbox := (0, 0, 100, 20), order_index := o }],
            ()))
        () 2 :=
  ⟨⟨by decide, by decide⟩,
    resume_equivalence
      (fun _ p o =>
        ([{ type := .text,
            content := if p = 1 then "Question: 1" else "Answer: B",
            page_number := p, bbox := (0, 0, 100, 20), order_index := o }],
          ()))
      () 2 2 (by decide) (by decide)⟩

/-! ## Claim C3 — idempotent persistence -/

/-- Does some question of `qs` claim the same (exam, number) key as row
`r`? -/
def keyIn (examId : Nat) (qs : List ParsedQuestion) (r : QRow) : Bool :=
  qs.any fun q => r.sameKey examId q.question_number

theorem savePage_cons (examId : Nat) (db : List QRow)
    (q : ParsedQuestion) (qs : List ParsedQuestion) :
    savePage examId db (q :: qs) =
      savePage examId (saveQuestion examId db q) qs := rfl

/-- A page save decomposes into the surviving old rows followed by the
rows the page itself wrote. -/
theorem savePage_decomp (examId : Nat) (qs : List ParsedQuestion) :
    ∀ db, savePage examId db qs =
      db.filter (fun r => !keyIn examId qs r) ++ savePage examId [] qs := by
  induction qs with
  | nil =>
    intro db
    simp [savePage, keyIn]
  | cons q qs ih =>
    intro db
    rw [savePage_cons, savePage_cons, ih (saveQuestion examId db q),
      ih (saveQuestion examId [] q)]
    unfold saveQuestion
    simp only [List.filter_append, List.filter_filter, List.filter_nil,
      List.nil_append, List.append_assoc]
    have hpred : ∀ r : QRow,
        (!keyIn examId qs r && !r.sameKey examId q.question_number) =
          !keyIn examId (q :: qs) r := by
      intro r
      simp only [keyIn, List.any_cons, Bool.not_or, Bool.and_comm]
    rw [List.filter_congr fun r _ => hpred r]

/-- Every row a page save writes carries one of the page's keys. -/
theorem savePage_self_keys (examId : Nat) (qs : List ParsedQuestion) :
    ∀ r ∈ savePage examId [] qs, keyIn examId qs r = true := by
  induction qs with
  | nil =>
    intro r hr
    simp [savePage] at hr
  | cons q qs ih =>
    intro r hr
    rw [savePage_cons] at hr
    rw [savePage_decomp examId qs (saveQuestion examId [] q)] at hr
    rcases List.mem_append.1 hr with hl | hrr
    · have hmem := List.mem_filter.1 hl
      have : r ∈ saveQuestion examId [] q := hmem.1
      simp [saveQuestion] at this
      subst this
      simp [keyIn, QRow.sameKey]
    · have hk := ih r hrr
      simp only [keyIn, List.any_cons] at hk ⊢
      rw [hk]
      simp

/-- One delete-then-insert save keeps the store at one row per key. -/
theorem saveQuestion_uniqueKeys (examId : Nat) (db : List QRow)
    (q : ParsedQuestion) (h : uniqueKeys db) :
    uniqueKeys (saveQuestion examId db q) := by
  intro e n
  unfold saveQuestion
  rw [List.filter_append, List.length_append]
  by_cases hk : e = examId ∧ n = q.question_number
  · obtain ⟨he, hn⟩ := hk
    subst he
    subst hn
    have hzero : ((db.filter fun r =>
        !r.sameKey e q.question_number).filter fun r =>
          r.sameKey e q.question_number) = [] := by
      rw [List.filter_filter]
      apply List.filter_eq_nil_iff.2
      intro a _
      simp
    rw [hzero]
    simp only [List.length_nil, Nat.zero_add]
    exact List.length_filter_le _ _
  · have hone : List.filter (fun r => r.sameKey e n)
        [({ exam_id := examId, question := q } : QRow)] = [] := by
      apply List.filter_eq_nil_iff.2
      intro a ha
      simp at ha
      subst ha
      simp [QRow.sameKey]
      intro he hn
      exact absurd ⟨he.symm, hn.symm⟩ hk
    rw [hone]
    have hsub : ((db.filter fun r =>
        !r.sameKey examId q.question_number).filter
          fun r => r.sameKey e n).Sublist (db.filter fun r => r.sameKey e n) :=
      List.Sublist.filter _ (List.filter_sublist db)
    have := hsub.length_le
    have hdb := h e n
    simp only [List.length_nil, Nat.add_zero]
    omega

/-- A sequence of saves preserves the one-row-per-key invariant. -/
theorem savePage_uniqueKeys (examId : Nat) (qs : List ParsedQuestion) :
    ∀ db, uniqueKeys db → uniqueKeys (savePage examId db qs) := by
  induction qs with
  | nil =>
    intro db h
    exact h
  | cons q qs ih =>
    intro db h
    rw [savePage_cons]
    exact ih _ (saveQuestion_uniqueKeys examId db q h)

/-- C3: every worker save deletes any stored row for (exam,
question_number) before inserting, so (i) any sequence of saves
preserves the at-most-one-row-per-key invariant, (ii) re-running a
page's save sequence on its own output changes nothing, and (iii)
re-processing the same page any number of further times leaves exactly
the rows of processing it once. -/
theorem idempotent_persistence (examId : Nat) (db : List QRow)
    (qs : List ParsedQuestion) (h : uniqueKeys db) :
    uniqueKeys (savePage examId db qs) ∧
    savePage examId (savePage examId db qs) qs = savePage examId db qs ∧
    ∀ n : Nat, (fun d => savePage examId d qs)^[n]
      (savePage examId db qs) = savePage examId db qs := by
  have hidem : savePage examId (savePage examId db qs) qs =
      savePage examId db qs := by
    rw [savePage_decomp examId qs db,
      savePage_decomp examId qs (db.filter (fun r => !keyIn examId qs r) ++
        savePage examId [] qs)]
    rw [List.filter_append, List.filter_filter]
    have h1 : (db.filter fun r =>
        (!keyIn examId qs r && !keyIn examId qs r)) =
        db.filter fun r => !keyIn examId qs r := by
      apply List.filter_congr
      intro r _
      rw [Bool.and_self]
    have h2 : ((savePage examId [] qs).filter fun r =>
        !keyIn examId qs r) = [] := by
      apply List.filter_eq_nil_iff.2
      intro r hr
      rw [savePage_self_keys examId qs r hr]
      simp
    rw [h1, h2, List.append_nil]
  refine ⟨savePage_uniqueKeys examId qs db h, hidem, ?_⟩
  · intro n
    induction n with
    | zero => rfl
    | succ k ihk =>
      rw [Function.iterate_succ_apply]
      show (fun d => savePage examId d qs)^[k]
        (savePage examId (savePage examId db qs) qs) = _
      rw [hidem]
      exact ihk

/-- Witness for C3: a store already holding the question's row, saved
again with a two-question page (the second a duplicate number). -/
theorem idempotent_persistence_witness :
    uniqueKeys (savePage 7
        [{ exam_id := 7,
           question := { question_number := 1, page_start := 1,
                         page_end := 1 } }]
        [{ question_number := 1, page_start := 2, page_end := 2 },
         { question_number := 1, page_start := 3, page_end := 3 }]) ∧
    savePage 7
        (savePage 7
          [{ exam_id := 7,
             question := { question_number := 1, page_start := 1,
                           page_end := 1 } }]
          [{ question_number := 1, page_start := 2, page_end := 2 },
           { question_number := 1, page_start := 3, page_end := 3 }])
        [{ question_number := 1, page_start := 2, page_end := 2 },
         { question_number := 1, page_start := 3, page_end := 3 }] =
      savePage 7
        [{ exam_id := 7,
           question := { question_number := 1, page_start := 1,
                         page_end := 1 } }]
        [{ question_number := 1, page_start := 2, page_end := 2 },
         { question_number := 1, page_start := 3, page_end := 3 }] := by
  have hu : uniqueKeys
      [({ exam_id := 7,
          question := { question_number := 1, page_start := 1,
                        page_end := 1 } } : QRow)] := by
    intro e n
    apply List.length_filter_le
  have := idempotent_persistence 7
    [{ exam_id := 7,
       question := { question_number := 1, page_start := 1,
                     page_end := 1 } }]
    [{ question_number := 1, page_start := 2, page_end := 2 },
     { question_number := 1, page_start := 3, page_end := 3 }] hu
  exact ⟨this.1, this.2.1⟩

/-! ## Claim C9 — gap detection -/

/-- The five questions of spec scenario 4, with observed numbers
`{1, 2, 5, 6, 10}`. -/
def gapScenarioQuestions : List ParsedQuestion :=
  [1, 2, 5, 6, 10].map fun n =>
    { question_number := n, page_start := 1, page_end := 1 }

/-- C9: for every non-empty question list, the validation report's
`missing_question_numbers` is exactly the ascending enumeration of the
integers in `[min observed, max observed]` absent from the observed
set; in particular observed numbers `{1, 2, 5, 6, 10}` yield
`[3, 4, 7, 8, 9]`. -/
theorem gap_detection (qs : List ParsedQuestion) (h : ¬qs.isEmpty = true) :
    (List.Sorted (· < ·) (validate qs).missing_question_numbers ∧
      ∀ n, n ∈ (validate qs).missing_question_numbers ↔
        ((qs.map ParsedQuestion.question_number).min?.getD 0 ≤ n ∧
          n ≤ (qs.map ParsedQuestion.question_number).max?.getD 0 ∧
          n ∉ qs.map ParsedQuestion.question_number)) ∧
    (validate gapScenarioQuestions).missing_question_numbers =
      [3, 4, 7, 8, 9] := by
  constructor
  · have hval : (validate qs).missing_question_numbers =
        ((Finset.Icc ((qs.map ParsedQuestion.question_number).min?.getD 0)
            ((qs.map ParsedQuestion.question_number).max?.getD 0)) \
          (qs.map ParsedQuestion.question_number).toFinset).sort (· ≤ ·) := by
      unfold validate
      rw [if_neg h]
    constructor
    · rw [hval]
      exact Finset.sort_sorted_lt _
    · intro n
      rw [hval, Finset.mem_sort, Finset.mem_sdiff, Finset.mem_Icc,
        List.mem_toFinset]
      tauto
  · have hchar : ∀ n, n ∈ (validate gapScenarioQuestions).missing_question_numbers ↔
        n ∈ [3, 4, 7, 8, 9] := by
      intro n
      have hval : (validate gapScenarioQuestions).missing_question_numbers =
          (Finset.Icc 1 10 \
            ([1, 2, 5, 6, 10] : List Nat).toFinset).sort (· ≤ ·) := rfl
      rw [hval, Finset.mem_sort, Finset.mem_sdiff, Finset.mem_Icc,
        List.mem_toFinset]
      constructor
      · rintro ⟨⟨hlo, hhi⟩, hnot⟩
        interval_cases n <;> simp_all
      · intro hn
        fin_cases hn <;> refine ⟨⟨by omega, by omega⟩, by decide⟩
    have hnodup : (validate gapScenarioQuestions).missing_question_numbers.Nodup := by
      have hval : (validate gapScenarioQuestions).missing_question_numbers =
          (Finset.Icc 1 10 \
            ([1, 2, 5, 6, 10] : List Nat).toFinset).sort (· ≤ ·) := rfl
      rw [hval]
      exact Finset.sort_nodup _ _
    have hsorted : List.Sorted (· ≤ ·)
        (validate gapScenarioQuestions).missing_question_numbers := by
      have hval : (validate gapScenarioQuestions).missing_question_numbers =
          (Finset.Icc 1 10 \
            ([1, 2, 5, 6, 10] : List Nat).toFinset).sort (· ≤ ·) := rfl
      rw [hval]
      exact Finset.sort_sorted _ _
    have hperm : (validate gapScenarioQuestions).missing_question_numbers.Perm
        [3, 4, 7, 8, 9] := by
      refine List.perm_of_nodup_nodup_toFinset_eq hnodup (by decide) ?_
      ext n
      rw [List.mem_toFinset, List.mem_toFinset, hchar]
    exact List.eq_of_perm_of_sorted hperm hsorted (by decide)

/-! ## Claim C6 — image-hash storage idempotence -/

/-- The extraction-run invariant tying the caches, the write log and
the emitted blocks together: each hash is written at most once, a
recorded path always stems from exactly that write, and every cache
entry and emitted block agrees with the hash-path table. -/
structure ExtractInv (s : ExtractState) : Prop where
  writesNodup : (s.writes.map Prod.fst).Nodup
  writesPath : ∀ w ∈ s.writes, s.hashPath w.1 = some w.2
  pathWritten : ∀ h p, s.hashPath h = some p → (h, p) ∈ s.writes
  cachePath : ∀ x h p, s.cache x = some (.stored h p) → s.hashPath h = some p
  emittedPath : ∀ e ∈ s.emitted, s.hashPath e.1 = some e.2.content

/-- The invariant only looks at four fields. -/
theorem inv_congr (s s' : ExtractState) (hinv : ExtractInv s)
    (hw : s'.writes = s.writes) (hp : s'.hashPath = s.hashPath)
    (hc : s'.cache = s.cache) (he : s'.emitted = s.emitted) :
    ExtractInv s' := by
  refine ⟨?_, ?_, ?_, ?_, ?_⟩
  · rw [hw]; exact hinv.writesNodup
  · rw [hw, hp]; exact hinv.writesPath
  · rw [hw, hp]; exact hinv.pathWritten
  · rw [hc, hp]; exact hinv.cachePath
  · rw [he, hp]; exact hinv.emittedPath

/-- Emitting a block whose content is the recorded path of its hash
preserves the invariant. -/
theorem inv_emit (s : ExtractState) (h : String) (b : ContentBlock)
    (hinv : ExtractInv s) (hp : s.hashPath h = some b.content) :
    ExtractInv { s with emitted := s.emitted ++ [(h, b)] } := by
  refine ⟨hinv.writesNodup, hinv.writesPath, hinv.pathWritten,
    hinv.cachePath, ?_⟩
  intro e he
  rcases List.mem_append.1 he with hl | hr
  · exact hinv.emittedPath e hl
  · have : e = (h, b) := by simpa using hr
    subst this
    exact hp

/-- Marking an xref as a logo preserves the invariant. -/
theorem inv_cache_logo (s : ExtractState) (x : Nat) (hinv : ExtractInv s) :
    ExtractInv { s with cache := fun y =>
      if y = x then some .logo else s.cache y } := by
  refine ⟨hinv.writesNodup, hinv.writesPath, hinv.pathWritten, ?_,
    hinv.emittedPath⟩
  intro y h p hy
  by_cases hxy : y = x
  · simp [hxy] at hy
  · simp only [if_neg hxy] at hy
    exact hinv.cachePath y h p hy

/-- Caching an xref as stored with the recorded path of its hash
preserves the invariant. -/
theorem inv_cache_stored (s : ExtractState) (x : Nat) (h p : String)
    (hinv : ExtractInv s) (hp : s.hashPath h = some p) :
    ExtractInv { s with cache := fun y =>
      if y = x then some (.stored h p) else s.cache y } := by
  refine ⟨hinv.writesNodup, hinv.writesPath, hinv.pathWritten, ?_,
    hinv.emittedPath⟩
  intro y h2 p2 hy
  by_cases hxy : y = x
  · simp only [hxy, if_pos rfl, Option.some_inj] at hy
    cases hy
    exact hp
  · simp only [if_neg hxy] at hy
    exact hinv.cachePath y h2 p2 hy

/-- Performing the first (and only) write for a hash preserves the
invariant. -/
theorem inv_write (s : ExtractState) (h rp : String) (cnew : Nat)
    (hinv : ExtractInv s) (hnone : s.hashPath h = none) :
    ExtractInv { s with
      counter := cnew
      hashPath := fun h2 => if h2 = h then some rp else s.hashPath h2
      writes := s.writes ++ [(h, rp)] } := by
  have hfresh : ∀ p, (h, p) ∉ s.writes := by
    intro p hmem
    have := hinv.writesPath (h, p) hmem
    rw [hnone] at this
    cases this
  refine ⟨?_, ?_, ?_, ?_, ?_⟩
  · show ((s.writes ++ [(h, rp)]).map Prod.fst).Nodup
    rw [List.map_append]
    rw [List.nodup_append]
    refine ⟨hinv.writesNodup, by simp, ?_⟩
    intro a ha hb
    simp at hb
    subst hb
    obtain ⟨w, hw, hwfst⟩ := List.mem_map.1 ha
    have := hinv.writesPath w hw
    rw [hwfst, hnone] at this
    cases this
  · intro w hw
    rcases List.mem_append.1 hw with hl | hr
    · have hval := hinv.writesPath w hl
      have hne : w.1 ≠ h := by
        intro hEq
        rw [hEq, hnone] at hval
        cases hval
      show (if w.1 = h then some rp else s.hashPath w.1) = some w.2
      rw [if_neg hne]
      exact hval
    · have : w = (h, rp) := by simpa using hr
      subst this
      show (if h = h then some rp else s.hashPath h) = some rp
      rw [if_pos rfl]
  · intro h2 p2 hp2
    by_cases hEq : h2 = h
    · subst hEq
      show (h2, p2) ∈ s.writes ++ [(h2, rp)]
      have : (if h2 = h2 then some rp else s.hashPath h2) = some p2 := hp2
      rw [if_pos rfl] at this
      cases this
      exact List.mem_append_right _ (by simp)
    · have : (if h2 = h then some rp else s.hashPath h2) = some p2 := hp2
      rw [if_neg hEq] at this
      exact List.mem_append_left _ (hinv.pathWritten h2 p2 this)
  · intro x h2 p2 hx
    have hold := hinv.cachePath x h2 p2 hx
    have hne : h2 ≠ h := by
      intro hEq
      rw [hEq, hnone] at hold
      cases hold
    show (if h2 = h then some rp else s.hashPath h2) = some p2
    rw [if_neg hne]
    exact hold
  · intro e he
    have hold := hinv.emittedPath e he
    have hne : e.1 ≠ h := by
      intro hEq
      rw [hEq, hnone] at hold
      cases hold
    show (if e.1 = h then some rp else s.hashPath e.1) = some e.2.content
    rw [if_neg hne]
    exact hold

/-- One image-loop iteration preserves the invariant. -/
theorem processImage_inv (minImageSize : Nat) (dirName : String)
    (doc : Nat → Option ImgData) (pageNum startOrder : Nat)
    (s : ExtractState) (io : Nat × ImgOccurrence) (hinv : ExtractInv s) :
    ExtractInv (processImage minImageSize dirName doc pageNum startOrder
      s io) := by
  unfold processImage
  dsimp only
  split
  · exact hinv
  · rename_i h p heq
    split
    · exact hinv
    · rename_i r hr
      split
      · exact hinv
      · exact inv_emit s h _ hinv (hinv.cachePath io.2.xref h p heq)
  · rename_i heq
    split
    · exact hinv
    · rename_i d hd
      split
      · exact inv_cache_logo s io.2.xref hinv
      · split
        · exact hinv
        · rename_i r hr
          split
          · exact hinv
          · have hinv1 : ExtractInv { s with
                hashCount := fun h =>
                  if h = d.hash then s.hashCount d.hash + 1
                  else s.hashCount h } :=
              inv_congr s _ hinv rfl rfl rfl rfl
            split
            · exact inv_cache_logo _ io.2.xref hinv1
            · split
              · rename_i p hp
                refine inv_emit _ d.hash _ (inv_cache_stored _ io.2.xref
                  d.hash p hinv1 hp) ?_
                exact hp
              · rename_i hp
                have hw := inv_write _ d.hash
                  ("questions/" ++ dirName ++ "/" ++ ("q_img_" ++
                    toString (s.counter + 1) ++ "_" ++ toString io.2.xref ++
                    "_" ++ toString pageNum ++ "." ++ d.ext))
                  (s.counter + 1) hinv1 hp
                refine inv_emit _ d.hash _ (inv_cache_stored _ io.2.xref
                  d.hash _ hw ?_) ?_
                · show (if d.hash = d.hash then _ else _) = _
                  rw [if_pos rfl]
                · show (if d.hash = d.hash then _ else _) = _
                  rw [if_pos rfl]

/-- A whole page preserves the invariant. -/
theorem processPageImages_inv (minImageSize : Nat) (dirName : String)
    (doc : Nat → Option ImgData) (pg : PageImages) (s : ExtractState)
    (hinv : ExtractInv s) :
    ExtractInv (processPageImages minImageSize dirName doc s pg) := by
  unfold processPageImages
  split
  · exact hinv
  · have : ∀ (l : List (Nat × ImgOccurrence)) (s : ExtractState),
        ExtractInv s → ExtractInv (l.foldl
          (processImage minImageSize dirName doc pg.page_number
            pg.start_order) s) := by
      intro l
      induction l with
      | nil => intro s hs; exact hs
      | cons x xs ih =>
        intro s hs
        exact ih _ (processImage_inv minImageSize dirName doc
          pg.page_number pg.start_order s x hs)
    exact this pg.imgs.enum s hinv

/-- A whole run satisfies the invariant. -/
theorem runImages_inv (minImageSize : Nat) (dirName : String)
    (doc : Nat → Option ImgData) (pages : List PageImages) :
    ExtractInv (runImages minImageSize dirName doc pages) := by
  unfold runImages
  have hinit : ExtractInv ({} : ExtractState) := by
    refine ⟨by simp, by simp, ?_, ?_, by simp⟩
    · intro h p hp
      cases hp
    · intro x h p hx
      cases hx
  have : ∀ (l : List PageImages) (s : ExtractState), ExtractInv s →
      ExtractInv (l.foldl (processPageImages minImageSize dirName doc) s) := by
    intro l
    induction l with
    | nil => intro s hs; exact hs
    | cons x xs ih =>
      intro s hs
      exact ih _ (processPageImages_inv minImageSize dirName doc x s hs)
  exact this pages {} hinit

/-- In a pair list whose first components are distinct, filtering on
the first component of a member yields exactly that member. -/
theorem filter_fst_eq_of_nodup {α β : Type} [DecidableEq α]
    (l : List (α × β)) (hn : (l.map Prod.fst).Nodup) (a : α × β)
    (ha : a ∈ l) : l.filter (fun w => w.1 = a.1) = [a] := by
  induction l with
  | nil => cases ha
  | cons x xs ih =>
    rw [List.map_cons, List.nodup_cons] at hn
    rcases List.mem_cons.1 ha with hax | haxs
    · subst hax
      have hnil : xs.filter (fun w => w.1 = a.1) = [] := by
        apply List.filter_eq_nil_iff.2
        intro w hw hfst
        simp only [decide_eq_true_eq] at hfst
        exact hn.1 (hfst ▸ List.mem_map_of_mem Prod.fst hw)
      simp [List.filter_cons, hnil]
    · have hne : ¬x.1 = a.1 := by
        intro hEq
        exact hn.1 (hEq ▸ List.mem_map_of_mem Prod.fst haxs)
      simpa [List.filter_cons, hne] using ih hn.2 haxs

/-- C6: within one extraction run, any two emitted image blocks whose
source bytes share a content hash carry the same stored reference, and
the write log holds exactly one write for that hash — the one that
created the shared reference at its first occurrence. -/
theorem image_hash_dedup (minImageSize : Nat) (dirName : String)
    (doc : Nat → Option ImgData) (pages : List PageImages)
    (e1 e2 : String × ContentBlock)
    (h1 : e1 ∈ (runImages minImageSize dirName doc pages).emitted)
    (h2 : e2 ∈ (runImages minImageSize dirName doc pages).emitted)
    (hh : e1.1 = e2.1) :
    e2.2.content = e1.2.content ∧
    (runImages minImageSize dirName doc pages).writes.filter
      (fun w => w.1 = e1.1) = [(e1.1, e1.2.content)] := by
  have hinv := runImages_inv minImageSize dirName doc pages
  have hp1 := hinv.emittedPath e1 h1
  have hp2 := hinv.emittedPath e2 h2
  rw [← hh] at hp2
  rw [hp1] at hp2
  have hc : e2.2.content = e1.2.content := (Option.some.inj hp2).symm
  refine ⟨hc, ?_⟩
  have hmem : (e1.1, e1.2.content) ∈
      (runImages minImageSize dirName doc pages).writes :=
    hinv.pathWritten e1.1 e1.2.content hp1
  have := filter_fst_eq_of_nodup _ hinv.writesNodup (e1.1, e1.2.content) hmem
  exact this

/-- Witness for C6: two pages, two distinct xrefs whose bytes share the
hash `h1`; the first occurrence writes the file, the second reuses the
stored reference. -/
def witnessDoc : Nat → Option ImgData := fun x =>
  if x = 1 then
    some { hash := "h1", width := 100, height := 100, ext := "png" }
  else if x = 2 then
    some { hash := "h1", width := 100, height := 100, ext := "png" }
  else none

/-- The two pages of the C6 witness. -/
def witnessPages : List PageImages :=
  [{ page_number := 1
     start_order := 0
     imgs := [{ xref := 1
                rects := [{ x0 := 0, y0 := 0, x1 := 10, y1 := 10 }] }] },
   { page_number := 2
     start_order := 5
     imgs := [{ xref := 2
                rects := [{ x0 := 0, y0 := 0, x1 := 10, y1 := 10 }] }] }]

/-- The block the first witness occurrence emits. -/
def witnessBlock1 : ContentBlock :=
  { type := .image
    content := "questions/d/q_img_1_1_1.png"
    page_number := 1
    bbox := (0, 0, 10, 10)
    order_index := 0 }

/-- The block the second witness occurrence emits: the same stored
reference, reused across pages and xrefs. -/
def witnessBlock2 : ContentBlock :=
  { type := .image
    content := "questions/d/q_img_1_1_1.png"
    page_number := 2
    bbox := (0, 0, 10, 10)
    order_index := 5 }

/-- Witness for C6 at the concrete two-page run. -/
theorem image_hash_dedup_witness :
    (("h1", witnessBlock1) ∈
        (runImages 50 "d" witnessDoc witnessPages).emitted ∧
      ("h1", witnessBlock2) ∈
        (runImages 50 "d" witnessDoc witnessPages).emitted) ∧
    (runImages 50 "d" witnessDoc witnessPages).writes.filter
        (fun w => w.1 = "h1") = [("h1", "questions/d/q_img_1_1_1.png")] :=
  ⟨⟨by decide, by decide⟩,
    (image_hash_dedup 50 "d" witnessDoc witnessPages
      ("h1", witnessBlock1) ("h1", witnessBlock2)
      (by decide) (by decide) rfl).2⟩

/-! ## Claim C2 — checkpoint ordering -/

/-- Every page up to the stored checkpoint has had all of its newly
finalized questions persisted. -/
def checkpointCovered (newQ : Nat → List ParsedQuestion) (s : DBState) :
    Prop :=
  ∀ P, 1 ≤ P → P ≤ s.current_page → ∀ q ∈ newQ P, q ∈ s.persisted

/-- Folding persist events never moves the checkpoint and only appends
to the persisted log. -/
theorem foldl_persist_events (examId : Nat) (qs : List ParsedQuestion) :
    ∀ s : DBState,
      ((qs.map WorkerEvent.persist).foldl (dbStep examId) s).current_page =
        s.current_page ∧
      ((qs.map WorkerEvent.persist).foldl (dbStep examId) s).persisted =
        s.persisted ++ qs := by
  induction qs with
  | nil =>
    intro s
    simp
  | cons q qs ih =>
    intro s
    simp only [List.map_cons, List.foldl_cons]
    have h := ih (dbStep examId s (.persist q))
    refine ⟨h.1.trans rfl, h.2.trans ?_⟩
    show (s.persisted ++ [q]) ++ qs = s.persisted ++ q :: qs
    rw [List.append_assoc, List.singleton_append]

/-- `checkpointCovered` is stable under keeping the checkpoint and
growing the log. -/
theorem checkpointCovered_extend (newQ : Nat → List ParsedQuestion)
    (s s' : DBState) (hcp : s'.current_page = s.current_page)
    (hsub : ∀ q, q ∈ s.persisted → q ∈ s'.persisted)
    (h : checkpointCovered newQ s) : checkpointCovered newQ s' := by
  intro P h1 h2 q hq
  exact hsub q (h P h1 (by omega) q hq)

/-- The central invariant of the worker's per-page loop: starting from
a store whose checkpoint covers its persisted pages, any prefix of the
event stream of the pages following the checkpoint leaves the store
with its checkpoint still covering its persisted pages — each
checkpoint event appears only after all of its page's persist events. -/
theorem dbLoop_invariant (examId : Nat) (newQ : Nat → List ParsedQuestion) :
    ∀ (k : Nat) (s0 : DBState) (n : Nat), checkpointCovered newQ s0 →
      checkpointCovered newQ
        ((((List.range' (s0.current_page + 1) k).flatMap
            (pageEvents newQ)).take n).foldl (dbStep examId) s0) := by
  intro k
  induction k with
  | zero =>
    intro s0 n h
    simpa using h
  | succ k ih =>
    intro s0 n h
    rw [List.range'_succ, List.flatMap_cons, List.take_append_eq_append_take,
      List.foldl_append]
    by_cases hn : n ≤ (newQ (s0.current_page + 1)).length
    · have hA : n ≤ (pageEvents newQ (s0.current_page + 1)).length := by
        simp only [pageEvents, List.length_append, List.length_map,
          List.length_cons, List.length_nil]
        omega
      have htail : n - (pageEvents newQ (s0.current_page + 1)).length = 0 := by
        omega
      rw [htail]
      simp only [List.take_zero, List.foldl_nil]
      have hpe : (pageEvents newQ (s0.current_page + 1)).take n =
          ((newQ (s0.current_page + 1)).take n).map WorkerEvent.persist := by
        unfold pageEvents
        rw [List.take_append_eq_append_take]
        have : n - ((newQ (s0.current_page + 1)).map WorkerEvent.persist).length
            = 0 := by
          simp only [List.length_map]
          omega
        rw [this]
        simp [List.map_take]
      rw [hpe]
      obtain ⟨hcp, hlog⟩ := foldl_persist_events examId
        ((newQ (s0.current_page + 1)).take n) s0
      refine checkpointCovered_extend newQ s0 _ hcp ?_ h
      intro q hq
      rw [hlog]
      exact List.mem_append_left _ hq
    · have hA : (pageEvents newQ (s0.current_page + 1)).length ≤ n := by
        simp only [pageEvents, List.length_append, List.length_map,
          List.length_cons, List.length_nil]
        omega
      rw [List.take_of_length_le hA]
      have hfold : (pageEvents newQ (s0.current_page + 1)).foldl
          (dbStep examId) s0 =
          dbStep examId (((newQ (s0.current_page + 1)).map
            WorkerEvent.persist).foldl (dbStep examId) s0)
            (.checkpoint (s0.current_page + 1)) := by
        unfold pageEvents
        rw [List.foldl_append]
        rfl
      obtain ⟨hcp, hlog⟩ := foldl_persist_events examId
        (newQ (s0.current_page + 1)) s0
      set s1 := (pageEvents newQ (s0.current_page + 1)).foldl
        (dbStep examId) s0 with hs1
      have hs1cp : s1.current_page = s0.current_page + 1 := by
        rw [hfold]
        rfl
      have hs1log : s1.persisted = s0.persisted ++ newQ (s0.current_page + 1) := by
        rw [hfold]
        exact hlog
      have hcov1 : checkpointCovered newQ s1 := by
        intro P h1 h2 q hq
        rw [hs1log]
        rcases Nat.lt_or_ge P (s0.current_page + 1) with hlt | hge
        · exact List.mem_append_left _ (h P h1 (by omega) q hq)
        · have : P = s0.current_page + 1 := by
            rw [hs1cp] at h2
            omega
          subst this
          exact List.mem_append_right _ hq
      have hmain := ih s1 (n - (pageEvents newQ (s0.current_page + 1)).length)
        hcov1
      rw [hs1cp] at hmain
      exact hmain

/-- C2: in every execution of the worker's per-page loop — any
deterministic extractor, any page count, any stopping point `n` in the
event stream (covering a pause, an exception or a crash: the exception
handler never writes `current_page`) — if the stored checkpoint has
reached page `P`, then every question newly finalized during page `P`
(indeed during any page up to `P`) was persisted earlier in the
stream: the checkpoint never references a page whose questions are
only partially written. -/
theorem checkpoint_ordering {ε : Type}
    (extractPage : ε → Nat → Nat → List ContentBlock × ε) (e0 : ε)
    (examId N n P : Nat) (q : ParsedQuestion) (hP : 1 ≤ P)
    (hle : P ≤ (dbAfter examId (newQuestionsOnPage extractPage e0)
      {} 1 N n).current_page)
    (hq : q ∈ newQuestionsOnPage extractPage e0 P) :
    q ∈ (dbAfter examId (newQuestionsOnPage extractPage e0)
      {} 1 N n).persisted := by
  have h0 : checkpointCovered (newQuestionsOnPage extractPage e0)
      ({} : DBState) := by
    intro P' h1 h2 q' hq'
    have hz : ({} : DBState).current_page = 0 := rfl
    rw [hz] at h2
    omega
  exact dbLoop_invariant examId (newQuestionsOnPage extractPage e0) N
    ({} : DBState) n h0 P hP hle q hq

/-- The single-page extractor used by the C2 witness: page 1 holds a
full question followed by a second question anchor, so question 1 is
finalized during page 1. -/
def witnessExtractor : Unit → Nat → Nat → List ContentBlock × Unit :=
  fun _ p o =>
    ([{ type := .text,
        content := "Question: 1\nT\nAnswer: A\nQuestion: 2",
        page_number := p, bbox := (0, 0, 100, 20), order_index := o }], ())

/-- Witness for C2: after both events of page 1 (persist, then
checkpoint), the checkpoint reads 1 and question 1 is persisted. -/
theorem checkpoint_ordering_witness :
    (1 ≤ 1 ∧
      1 ≤ (dbAfter 7 (newQuestionsOnPage witnessExtractor ())
        {} 1 1 2).current_page ∧
      ({ question_number := 1, page_start := 1, page_end := 1,
         question_text := "T", answer_text := "A" } : ParsedQuestion) ∈
        newQuestionsOnPage witnessExtractor () 1) ∧
    ({ question_number := 1, page_start := 1, page_end := 1,
       question_text := "T", answer_text := "A" } : ParsedQuestion) ∈
      (dbAfter 7 (newQuestionsOnPage witnessExtractor ())
        {} 1 1 2).persisted :=
  ⟨⟨by decide, by decide, by decide⟩,
    checkpoint_ordering witnessExtractor () 7 1 2 1
      { question_number := 1, page_start := 1, page_end := 1,
        question_text := "T", answer_text := "A" }
      (by decide) (by decide) (by decide)⟩

/-- Witness for C9 at spec scenario 4. -/
theorem gap_detection_witness :
    ¬gapScenarioQuestions.isEmpty = true ∧
      ∀ n, n ∈ (validate gapScenarioQuestions).missing_question_numbers ↔
        ((gapScenarioQuestions.map
            ParsedQuestion.question_number).min?.getD 0 ≤ n ∧
          n ≤ (gapScenarioQuestions.map
            ParsedQuestion.question_number).max?.getD 0 ∧
          n ∉ gapScenarioQuestions.map ParsedQuestion.question_number) :=
  ⟨by decide, ((gap_detection gapScenarioQuestions (by decide)).1).2⟩

end PdfParser
